import Mathlib

/-!
Shallow embedding of the transaction receiver in `src/server.py`
(a FastAPI service that appends transaction records to a JSONL log and
answers aggregation queries by re-scanning the log), together with proofs
about its ingestion validation and its aggregation endpoints.

Modelling conventions:
* Python `float` amounts are modelled as exact rationals (`ℚ`); Python
  `round(x, 2)` is modelled as round-half-even to two decimals on `ℚ`.
* The JSONL log is modelled as a `List StoredTx` in append order; a missing
  log file is the empty list (`read_transactions` returns `[]` then).
* A request body is a `RawSubmission` of optional typed fields; a field that
  is absent or of the wrong JSON type is `none` (pydantic rejects both with
  a 422 validation error).
* Python `datetime` values are an instant (seconds since the Unix epoch)
  together with a UTC offset in minutes.
-/

attribute [local semireducible] Rat.mul Rat.inv Rat.add Rat.sub

namespace TxPipeline

/-- Floor of a rational as an integer (`q.num.fdiv q.den`). -/
def ratFloor (q : ℚ) : ℤ := q.num.fdiv q.den

/-- Round a rational to the nearest integer, ties to even: the semantics of
Python `round(x)` on exact values. -/
def roundHalfEven (q : ℚ) : ℤ :=
  let f := ratFloor q
  let r := q - (f : ℚ)
  if r < 1/2 then f
  else if 1/2 < r then f + 1
  else if f % 2 = 0 then f else f + 1

/-- Python `round(x, 2)` on exact rationals. -/
def roundTo2 (q : ℚ) : ℚ := (roundHalfEven (q * 100) : ℚ) / 100

/-- The `type` enum of the pydantic `Transaction` model in `server.py`:
`Literal["credit", "debit"]`. -/
inductive TxType where
  | credit : TxType
  | debit : TxType
deriving DecidableEq, Repr

/-- The JSON string for a `TxType`. -/
def TxType.str : TxType → String
  | .credit => "credit"
  | .debit => "debit"

/-- A Python `datetime` carrying a timezone: the instant in seconds since
the Unix epoch together with the tzinfo UTC offset in minutes. -/
structure Datetime where
  epochSec : ℤ
  offsetMin : ℤ
deriving DecidableEq, Repr

/-- `dt.astimezone(timezone.utc)`: the same instant with offset zero. -/
def astimezoneUtc (d : Datetime) : Datetime := ⟨d.epochSec, 0⟩

/-- The decimal digit character for `n % 10`. -/
def dChar (n : ℕ) : Char := Char.ofNat (48 + n % 10)

/-- Zero-padded 2-digit decimal rendering (strftime-style `%m`, `%d`, `%H`). -/
def pad2 (n : ℕ) : String := ⟨[dChar (n / 10), dChar n]⟩

/-- Zero-padded 4-digit decimal rendering (strftime-style `%Y`, for years in
`1..9999`, the `datetime` range). -/
def pad4 (n : ℕ) : String := ⟨[dChar (n / 1000), dChar (n / 100), dChar (n / 10), dChar n]⟩

/-- Proleptic Gregorian date of a day count relative to 1970-01-01
(Hinnant's `civil_from_days`, as used by Python `datetime` display). -/
def civilFromDays (z0 : ℤ) : ℤ × ℕ × ℕ :=
  let z := z0 + 719468
  let era : ℤ := z.fdiv 146097
  let doe : ℕ := (z - era * 146097).toNat
  let yoe : ℕ := (doe - doe / 1460 + doe / 36524 - doe / 146096) / 365
  let y : ℤ := (yoe : ℤ) + era * 400
  let doy : ℕ := doe - (365 * yoe + yoe / 4 - yoe / 100)
  let mp : ℕ := (5 * doy + 2) / 153
  let d : ℕ := doy - (153 * mp + 2) / 5 + 1
  let m : ℕ := if mp < 10 then mp + 3 else mp - 9
  (if m ≤ 2 then y + 1 else y, m, d)

/-- The `YYYY-MM-DDTHH:MM:SS` part of `datetime.isoformat()` for the wall
clock `t` seconds from the epoch (sub-second part zero). -/
def formatCivil (t : ℤ) : String :=
  let days := t.fdiv 86400
  let sod := (t.fmod 86400).toNat
  let ymd := civilFromDays days
  pad4 ymd.1.toNat ++ "-" ++ pad2 ymd.2.1 ++ "-" ++ pad2 ymd.2.2 ++ "T" ++
    pad2 (sod / 3600) ++ ":" ++ pad2 (sod % 3600 / 60) ++ ":" ++ pad2 (sod % 60)

/-- The UTC-offset suffix of `datetime.isoformat()` for an aware datetime,
e.g. `+00:00`. -/
def offsetSuffix (o : ℤ) : String :=
  (if 0 ≤ o then "+" else "-") ++ pad2 (o.natAbs / 60) ++ ":" ++ pad2 (o.natAbs % 60)

/-- `dt.isoformat()` for an aware `datetime` with zero microseconds. -/
def isoformat (d : Datetime) : String :=
  formatCivil (d.epochSec + d.offsetMin * 60) ++ offsetSuffix d.offsetMin

/-- Python `str.replace` on character lists: replace every non-overlapping
occurrence of `pat`, scanning left to right. The extra `fuel` argument only
makes the recursion structural; it is in no branch exhausted when it starts
at the length of the scanned list (`pat` is nonempty at every use site). -/
def pyReplaceAux (pat rep : List Char) : ℕ → List Char → List Char
  | 0, l => l
  | _ + 1, [] => []
  | fuel + 1, c :: rest =>
    if pat.isPrefixOf (c :: rest) then
      rep ++ pyReplaceAux pat rep fuel (rest.drop (pat.length - 1))
    else
      c :: pyReplaceAux pat rep fuel rest

/-- Python `s.replace(pat, rep)` on strings. -/
def pyReplace (s pat rep : String) : String :=
  ⟨pyReplaceAux pat.data rep.data s.data.length s.data⟩

/-- The timestamp normalization in `recieve_transaction`:
`tx.timestamp.astimezone(timezone.utc).isoformat().replace("+00:00", "Z")`. -/
def normalizeTs (d : Datetime) : String :=
  pyReplace (isoformat (astimezoneUtc d)) "+00:00" "Z"

/-- A validated transaction, as the pydantic `Transaction` model of
`server.py` (`id`, `account`, `amount`, `timestamp`, `type`). -/
structure Transaction where
  id : String
  account : String
  amount : ℚ
  timestamp : Datetime
  type : TxType
deriving DecidableEq, Repr

/-- One stored record of the JSONL log: the JSON fields written by
`recieve_transaction` (`timestamp` serialized to a string, `type` to its
JSON string; `read_transactions` reads these back as plain dicts). -/
structure StoredTx where
  id : String
  account : String
  amount : ℚ
  timestamp : String
  type : String
deriving DecidableEq, Repr

/-- A raw request body for the ingestion endpoint: each field is `none` when
absent or not of the JSON type the pydantic model requires (pydantic rejects
both cases with a 422 validation error). -/
structure RawSubmission where
  id : Option String
  account : Option String
  amount : Option ℚ
  timestamp : Option Datetime
  type : Option String
deriving Repr

/-- The check of the `Literal["credit", "debit"]` annotation. -/
def parseTxType : String → Option TxType
  | "credit" => some TxType.credit
  | "debit" => some TxType.debit
  | _ => none

/-- Pydantic validation of the request body against the `Transaction` model:
all five fields must be present with their declared types and `type` must be
in the two-value enum; no other constraint is checked. -/
def validate (raw : RawSubmission) : Option Transaction := do
  let i ← raw.id
  let a ← raw.account
  let amt ← raw.amount
  let ts ← raw.timestamp
  let tyStr ← raw.type
  let ty ← parseTxType tyStr
  pure ⟨i, a, amt, ts, ty⟩

/-- The serialized form of a validated transaction, as written to the log by
`recieve_transaction` (`record = tx.model_dump()` with the timestamp
normalized). -/
def storedOf (tx : Transaction) : StoredTx :=
  ⟨tx.id, tx.account, tx.amount, normalizeTs tx.timestamp, tx.type.str⟩

/-- The accepted-path body of `recieve_transaction`: serialize the record
(normalizing the timestamp) and append it as one line of the log. -/
def receive (log : List StoredTx) (tx : Transaction) : List StoredTx :=
  log ++ [storedOf tx]

/-- The `POST /transactions` endpoint: validation failure is a 422 and the
log is untouched (`none`); success appends and returns the echoed id. -/
def postTransaction (log : List StoredTx) (raw : RawSubmission) :
    List StoredTx × Option String :=
  match validate raw with
  | some tx => (receive log tx, some tx.id)
  | none => (log, none)

/-- `sum(tx["amount"] for tx in transactions if tx["type"] == "credit")`. -/
def sumCredits (l : List StoredTx) : ℚ :=
  ((l.filter fun tx => tx.type == "credit").map (fun tx => tx.amount)).sum

/-- `sum(tx["amount"] for tx in transactions if tx["type"] == "debit")`. -/
def sumDebits (l : List StoredTx) : ℚ :=
  ((l.filter fun tx => tx.type == "debit").map (fun tx => tx.amount)).sum

/-- The response of `GET /api/analytics/summary`. -/
structure Summary where
  total_transactions : ℕ
  total_credits : ℚ
  total_debits : ℚ
  net_balance : ℚ
  average_transaction : ℚ
  unique_accounts : ℕ
deriving DecidableEq, Repr

/-- `get_summary` of `server.py`: all-zero fields on an empty log, otherwise
the rounded credit/debit sums, their rounded difference, the rounded mean
amount, and the number of distinct accounts. -/
def get_summary (l : List StoredTx) : Summary :=
  if l.isEmpty then ⟨0, 0, 0, 0, 0, 0⟩
  else
    let tc := sumCredits l
    let td := sumDebits l
    ⟨l.length, roundTo2 tc, roundTo2 td, roundTo2 (tc - td),
      roundTo2 ((l.map (fun tx => tx.amount)).sum / (l.length : ℚ)),
      ((l.map (fun tx => tx.account)).dedup).length⟩

/-- Python string comparison `s < t` on the underlying code-point sequences
(strict lexicographic order, character by character). -/
def pyStrLt : List Char → List Char → Bool
  | [], [] => false
  | [], _ :: _ => true
  | _ :: _, [] => false
  | c :: a, d :: b => if c = d then pyStrLt a b else decide (c < d)

/-- Python string comparison `s <= t`. -/
def strLe (s t : String) : Prop := pyStrLt t.data s.data = false

instance (s t : String) : Decidable (strLe s t) := inferInstanceAs (Decidable (_ = _))

theorem pyStrLt_irrefl : ∀ a : List Char, pyStrLt a a = false
  | [] => rfl
  | c :: a => by simp [pyStrLt, pyStrLt_irrefl a]

theorem pyStrLt_trans :
    ∀ a b c : List Char, pyStrLt a b = true → pyStrLt b c = true → pyStrLt a c = true
  | [], _ :: _, _ :: _, _, _ => rfl
  | [], [], _, h, _ => by simp [pyStrLt] at h
  | _, _ :: _, [], _, h => by simp [pyStrLt] at h
  | _ :: _, [], _, h, _ => by simp [pyStrLt] at h
  | x :: a, y :: b, z :: c, h₁, h₂ => by
    simp only [pyStrLt] at h₁ h₂ ⊢
    by_cases hxy : x = y
    · subst hxy
      rw [if_pos rfl] at h₁
      by_cases hxz : x = z
      · subst hxz
        rw [if_pos rfl] at h₂ ⊢
        exact pyStrLt_trans a b c h₁ h₂
      · rw [if_neg hxz] at h₂ ⊢
        exact h₂
    · rw [if_neg hxy] at h₁
      by_cases hyz : y = z
      · subst hyz
        rw [if_neg hxy]
        exact h₁
      · rw [if_neg hyz] at h₂
        have hxz : x < z := lt_trans (of_decide_eq_true h₁) (of_decide_eq_true h₂)
        rw [if_neg (ne_of_lt hxz)]
        exact decide_eq_true hxz

theorem pyStrLt_eq_of_not :
    ∀ a b : List Char, pyStrLt a b = false → pyStrLt b a = false → a = b
  | [], [], _, _ => rfl
  | [], _ :: _, h, _ => by simp [pyStrLt] at h
  | _ :: _, [], _, h => by simp [pyStrLt] at h
  | x :: a, y :: b, h₁, h₂ => by
    simp only [pyStrLt] at h₁ h₂
    by_cases hxy : x = y
    · subst hxy
      simp only [if_pos rfl] at h₁ h₂
      rw [pyStrLt_eq_of_not a b h₁ h₂]
    · rw [if_neg hxy] at h₁
      rw [if_neg (Ne.symm hxy)] at h₂
      rcases lt_or_gt_of_ne hxy with h | h
      · exact absurd h (of_decide_eq_false h₁)
      · exact absurd h (of_decide_eq_false h₂)

theorem pyStrLt_asymm {a b : List Char} (h : pyStrLt a b = true) : pyStrLt b a = false := by
  cases hba : pyStrLt b a with
  | false => rfl
  | true => exact absurd (pyStrLt_trans a b a h hba) (by simp [pyStrLt_irrefl a])

theorem strLe_total (s t : String) : strLe s t ∨ strLe t s := by
  unfold strLe
  cases h : pyStrLt t.data s.data with
  | false => exact Or.inl rfl
  | true => exact Or.inr (pyStrLt_asymm h)

theorem strLe_trans {s t u : String} (h₁ : strLe s t) (h₂ : strLe t u) : strLe s u := by
  unfold strLe at h₁ h₂ ⊢
  cases h : pyStrLt u.data s.data with
  | false => rfl
  | true =>
    exfalso
    cases htu : pyStrLt t.data u.data with
    | true =>
      have hts := pyStrLt_trans _ _ _ htu h
      rw [h₁] at hts
      exact Bool.noConfusion hts
    | false =>
      have hut := pyStrLt_eq_of_not _ _ h₂ htu
      rw [hut, h₁] at h
      exact Bool.noConfusion h

/-- A Python `dict` preserving insertion order, as an association list. An
access `d[k]` on a `defaultdict` inserts the default for a missing key; the
per-record statement group of each aggregation loop is one update `f` of the
entry at its key. -/
def upsert (k : String) (f : β → β) (dflt : β) : List (String × β) → List (String × β)
  | [] => [(k, f dflt)]
  | (k', v) :: rest =>
    if k' = k then (k', f v) :: rest else (k', v) :: upsert k f dflt rest

/-- The per-account accumulator of `get_by_account`
(`{"credits": 0, "debits": 0, "count": 0, "balance": 0}`). -/
structure AccountData where
  credits : ℚ
  debits : ℚ
  count : ℕ
  balance : ℚ
deriving DecidableEq, Repr

/-- The loop body of `get_by_account` for one record: count up, then add the
amount to credits and balance for `type == "credit"` and otherwise to debits
and subtract it from balance. -/
def accountStep (tx : StoredTx) (d : AccountData) : AccountData :=
  if tx.type == "credit" then
    ⟨d.credits + tx.amount, d.debits, d.count + 1, d.balance + tx.amount⟩
  else
    ⟨d.credits, d.debits + tx.amount, d.count + 1, d.balance - tx.amount⟩

/-- One entry of the `GET /api/analytics/by-account` response. -/
structure AccountEntry where
  account : String
  credits : ℚ
  debits : ℚ
  balance : ℚ
  count : ℕ
deriving DecidableEq, Repr

/-- The comparison of `sorted(result, key=lambda x: x["balance"], reverse=True)`:
`x` may stay before `y` exactly when `x`'s balance is not below `y`'s. -/
def balanceDesc (x y : AccountEntry) : Prop := y.balance ≤ x.balance

instance : DecidableRel balanceDesc := fun x y => inferInstanceAs (Decidable (_ ≤ _))

instance : IsTotal AccountEntry balanceDesc := ⟨fun x y => le_total y.balance x.balance⟩

instance : IsTrans AccountEntry balanceDesc :=
  ⟨fun _ _ _ h h' => le_trans h' h⟩

/-- `get_by_account` of `server.py`: accumulate per-account data over the
log in a `defaultdict`, round the monetary fields of each entry, and sort
descending by balance. Python's `sorted` is a stable sort and a stable
sort's output is unique, so the stable `insertionSort` computes it. -/
def get_by_account (l : List StoredTx) : List AccountEntry :=
  let m := l.foldl (fun m tx => upsert tx.account (accountStep tx) ⟨0, 0, 0, 0⟩ m) []
  let result := m.map fun p =>
    AccountEntry.mk p.1 (roundTo2 p.2.credits) (roundTo2 p.2.debits)
      (roundTo2 p.2.balance) p.2.count
  result.insertionSort balanceDesc

/-- A parsed Python `datetime` as produced by `datetime.fromisoformat`:
civil fields plus an optional UTC offset in minutes (`none` when naive). -/
structure PyDatetime where
  year : ℕ
  month : ℕ
  day : ℕ
  hour : ℕ
  minute : ℕ
  second : ℕ
  microsecond : ℕ
  offsetMin : Option ℤ
deriving DecidableEq, Repr

/-- The numeric value of a decimal digit character. -/
def digitVal (c : Char) : ℕ := c.toNat - 48

/-- Whether `y` is a Gregorian leap year. -/
def isLeap (y : ℕ) : Bool := (y % 4 = 0 && y % 100 != 0) || y % 400 = 0

/-- Number of days of month `m` of year `y` (the calendar validation used by
the `datetime` constructor). -/
def daysInMonth (y m : ℕ) : ℕ :=
  if m = 2 then (if isLeap y then 29 else 28)
  else if m = 4 ∨ m = 6 ∨ m = 9 ∨ m = 11 then 30
  else 31

/-- Parse the optional fractional-seconds part accepted by
`datetime.fromisoformat` (a dot and one to six digits), returning the
microsecond value and the remaining characters. -/
def parseFrac : List Char → Option (ℕ × List Char)
  | '.' :: rest =>
    let digs := rest.takeWhile Char.isDigit
    if 1 ≤ digs.length ∧ digs.length ≤ 6 then
      some ((digs.foldl (fun n c => n * 10 + digitVal c) 0) * 10 ^ (6 - digs.length),
        rest.drop digs.length)
    else none
  | rest => some (0, rest)

/-- Parse the optional `±HH:MM` UTC-offset suffix accepted by
`datetime.fromisoformat`; `none` inside the result means a naive datetime. -/
def parseOffset : List Char → Option (Option ℤ)
  | [] => some none
  | [s, h0, h1, ':', m0, m1] =>
    if (s = '+' ∨ s = '-') ∧ h0.isDigit ∧ h1.isDigit ∧ m0.isDigit ∧ m1.isDigit then
      let hh := digitVal h0 * 10 + digitVal h1
      let mm := digitVal m0 * 10 + digitVal m1
      if hh ≤ 23 ∧ mm ≤ 59 then
        some (some ((if s = '+' then 1 else -1) * ((hh * 60 + mm : ℕ) : ℤ)))
      else none
    else none
  | _ => some none

/-- `datetime.fromisoformat` on the full-precision form
`YYYY-MM-DD<sep>HH:MM:SS[.ffffff][±HH:MM]` stored in the log (any single
separator character is accepted; field ranges and the calendar are
validated; shorter ISO-8601 forms are out of the modelled grammar). -/
def fromisoChars : List Char → Option PyDatetime
  | y0 :: y1 :: y2 :: y3 :: '-' :: mo0 :: mo1 :: '-' :: d0 :: d1 :: _sep ::
      h0 :: h1 :: ':' :: mi0 :: mi1 :: ':' :: s0 :: s1 :: rest =>
    if y0.isDigit ∧ y1.isDigit ∧ y2.isDigit ∧ y3.isDigit ∧ mo0.isDigit ∧ mo1.isDigit ∧
        d0.isDigit ∧ d1.isDigit ∧ h0.isDigit ∧ h1.isDigit ∧ mi0.isDigit ∧ mi1.isDigit ∧
        s0.isDigit ∧ s1.isDigit then
      let year := ((digitVal y0 * 10 + digitVal y1) * 10 + digitVal y2) * 10 + digitVal y3
      let month := digitVal mo0 * 10 + digitVal mo1
      let day := digitVal d0 * 10 + digitVal d1
      let hour := digitVal h0 * 10 + digitVal h1
      let minute := digitVal mi0 * 10 + digitVal mi1
      let second := digitVal s0 * 10 + digitVal s1
      match parseFrac rest with
      | some (us, rest2) =>
        match parseOffset rest2 with
        | some off =>
          if 1 ≤ year ∧ 1 ≤ month ∧ month ≤ 12 ∧ 1 ≤ day ∧ day ≤ daysInMonth year month ∧
              hour ≤ 23 ∧ minute ≤ 59 ∧ second ≤ 59 then
            some ⟨year, month, day, hour, minute, second, us, off⟩
          else none
        | none => none
      | none => none
    else none
  | _ => none

/-- `dt.strftime("%Y-%m-%d %H:00")`: the hour bucket key of `get_timeline`,
printed from the parsed datetime's own civil fields (no timezone
conversion). -/
def strftimeHour (dt : PyDatetime) : String :=
  pad4 dt.year ++ "-" ++ pad2 dt.month ++ "-" ++ pad2 dt.day ++ " " ++ pad2 dt.hour ++ ":00"

/-- The bucket-key computation of `get_timeline` for one stored timestamp:
`datetime.fromisoformat(ts.replace("Z", "+00:00")).strftime("%Y-%m-%d %H:00")`;
`none` models the `ValueError` raised on a timestamp `fromisoformat`
rejects. -/
def pyHourKey (ts : String) : Option String :=
  (fromisoChars (pyReplace ts "Z" "+00:00").data).map strftimeHour

/-- The per-bucket accumulator of `get_timeline`
(`{"credits": 0, "debits": 0, "count": 0}`). -/
structure TimelineData where
  credits : ℚ
  debits : ℚ
  count : ℕ
deriving DecidableEq, Repr

/-- The loop body of `get_timeline` for one record: count up, then add the
amount to credits for `type == "credit"` and otherwise to debits. -/
def timelineStep (tx : StoredTx) (d : TimelineData) : TimelineData :=
  if tx.type == "credit" then ⟨d.credits + tx.amount, d.debits, d.count + 1⟩
  else ⟨d.credits, d.debits + tx.amount, d.count + 1⟩

/-- One entry of the `GET /api/analytics/timeline` response. -/
structure TimelineEntry where
  timestamp : String
  credits : ℚ
  debits : ℚ
  count : ℕ
deriving DecidableEq, Repr

/-- The comparison of `sorted(timeline.items())`: Python compares the
`(key, value)` tuples, which on the distinct keys of a dict is the
lexicographic string order of the keys. -/
def bucketAsc (a b : String × TimelineData) : Prop := strLe a.1 b.1

instance : DecidableRel bucketAsc := fun a b => inferInstanceAs (Decidable (strLe _ _))

instance : IsTotal (String × TimelineData) bucketAsc := ⟨fun a b => strLe_total a.1 b.1⟩

instance : IsTrans (String × TimelineData) bucketAsc :=
  ⟨fun _ _ _ h h' => strLe_trans h h'⟩

/-- `get_timeline` of `server.py`: empty log gives an empty list; otherwise
bucket the records by `pyHourKey` of their stored timestamp in a
`defaultdict` (`none` when some timestamp raises in `fromisoformat`), sort
the buckets ascending by key (`sorted(timeline.items())`; the keys of a
dict are distinct), and round the monetary fields. -/
def get_timeline (l : List StoredTx) : Option (List TimelineEntry) :=
  if l.isEmpty then some []
  else do
    let m ← l.foldlM (fun m tx => do
      let key ← pyHourKey tx.timestamp
      pure (upsert key (timelineStep tx) ⟨0, 0, 0⟩ m)) []
    pure ((m.insertionSort bucketAsc).map fun p =>
      TimelineEntry.mk p.1 (roundTo2 p.2.credits) (roundTo2 p.2.debits) p.2.count)

/-- Python list slicing `xs[:n]` for an arbitrary (possibly negative)
integer `n`: a nonnegative `n` keeps the first `n` elements, a negative `n`
drops the last `-n` (clamped); no index error is possible. -/
def pySliceTo (xs : List α) (n : ℤ) : List α :=
  if 0 ≤ n then xs.take n.toNat
  else xs.take (xs.length - min (-n).toNat xs.length)

/-- The comparison of `sorted(transactions, key=lambda x: x["timestamp"],
reverse=True)`: `x` may stay before `y` exactly when `x`'s timestamp string
is not lexicographically below `y`'s. -/
def tsDesc (x y : StoredTx) : Prop := strLe y.timestamp x.timestamp

instance : DecidableRel tsDesc := fun x y => inferInstanceAs (Decidable (strLe _ _))

instance : IsTotal StoredTx tsDesc := ⟨fun x y => strLe_total y.timestamp x.timestamp⟩

instance : IsTrans StoredTx tsDesc :=
  ⟨fun _ _ _ h h' => strLe_trans h' h⟩

/-- `get_recent` of `server.py`: sort the records descending by the stored
timestamp string (`sorted` is stable, and a stable sort's output is unique,
so the stable `insertionSort` computes it) and return the slice `[:limit]`
(`limit` defaults to 10). -/
def get_recent (l : List StoredTx) (limit : ℤ := 10) : List StoredTx :=
  pySliceTo (l.insertionSort tsDesc) limit

/-- `get_type_distribution` of `server.py`: the number of records with
`type == "credit"` and the number with `type == "debit"`. -/
def get_type_distribution (l : List StoredTx) : ℕ × ℕ :=
  (l.countP (fun tx => tx.type == "credit"), l.countP (fun tx => tx.type == "debit"))

/-- The truncation of a stored timestamp string to its `YYYY-MM-DD HH:00`
hour key, as the specification describes the timeline bucket key: the first
ten characters (the date), a space, characters 11-12 (the hour), `:00`. -/
def hourTrunc (ts : String) : String :=
  (ts.data.take 10).asString ++ " " ++ ((ts.data.drop 11).take 2).asString ++ ":00"

/-- The sum accumulated by the `else` branches of `get_by_account` and
`get_timeline`: the amounts of the records whose type is not "credit" (on a
receiver-written log these are exactly the "debit" records). -/
def sumOther (l : List StoredTx) : ℚ :=
  ((l.filter fun tx => !(tx.type == "credit")).map (fun tx => tx.amount)).sum

/-- `q` is an exact two-decimal value (an integer number of cents), as the
spec's data model prescribes for amounts. -/
def isCent (q : ℚ) : Prop := (q * 100).den = 1

instance (q : ℚ) : Decidable (isCent q) := inferInstanceAs (Decidable (_ = _))

/-! ### Rounding lemmas -/

theorem roundTo2_eq_self {q : ℚ} (h : isCent q) : roundTo2 q = q := by
  have hnum : (((q * 100).num : ℤ) : ℚ) = q * 100 := Rat.coe_int_num_of_den_eq_one h
  unfold roundTo2 roundHalfEven ratFloor
  rw [h]
  simp only [Nat.cast_one, Int.fdiv_one, hnum, sub_self]
  rw [if_pos (by norm_num : (0 : ℚ) < 1/2)]
  rw [hnum]
  field_simp

theorem isCent_add {a b : ℚ} (ha : isCent a) (hb : isCent b) : isCent (a + b) := by
  have hna : (((a * 100).num : ℤ) : ℚ) = a * 100 := Rat.coe_int_num_of_den_eq_one ha
  have hnb : (((b * 100).num : ℤ) : ℚ) = b * 100 := Rat.coe_int_num_of_den_eq_one hb
  have : (a + b) * 100 = (((a * 100).num + (b * 100).num : ℤ) : ℚ) := by
    push_cast
    rw [hna, hnb]
    ring
  unfold isCent
  rw [this]
  exact Rat.den_intCast _

theorem isCent_neg {a : ℚ} (ha : isCent a) : isCent (-a) := by
  have hna : (((a * 100).num : ℤ) : ℚ) = a * 100 := Rat.coe_int_num_of_den_eq_one ha
  have : (-a) * 100 = ((-(a * 100).num : ℤ) : ℚ) := by
    push_cast
    rw [hna]
    ring
  unfold isCent
  rw [this]
  exact Rat.den_intCast _

theorem isCent_sub {a b : ℚ} (ha : isCent a) (hb : isCent b) : isCent (a - b) := by
  rw [sub_eq_add_neg]
  exact isCent_add ha (isCent_neg hb)

theorem isCent_listSum : ∀ {L : List ℚ}, (∀ q ∈ L, isCent q) → isCent L.sum
  | [], _ => by
    unfold isCent
    norm_num
  | q :: L, h => by
    rw [List.sum_cons]
    exact isCent_add (h q (by simp)) (isCent_listSum fun x hx => h x (by simp [hx]))

/-! ### Summary lemmas -/

theorem total_transactions_eq (l : List StoredTx) :
    (get_summary l).total_transactions = l.length := by
  unfold get_summary
  split
  · next h =>
    rw [List.isEmpty_iff.mp h]
    rfl
  · rfl

theorem sumCredits_append (l : List StoredTx) (r : StoredTx) :
    sumCredits (l ++ [r]) = sumCredits l + (if r.type == "credit" then r.amount else 0) := by
  unfold sumCredits
  rw [List.filter_append, List.map_append, List.sum_append]
  by_cases h : r.type == "credit" <;> simp [h, List.filter]

theorem sumDebits_append (l : List StoredTx) (r : StoredTx) :
    sumDebits (l ++ [r]) = sumDebits l + (if r.type == "debit" then r.amount else 0) := by
  unfold sumDebits
  rw [List.filter_append, List.map_append, List.sum_append]
  by_cases h : r.type == "debit" <;> simp [h, List.filter]

theorem isCent_sumCredits {l : List StoredTx} (h : ∀ tx ∈ l, isCent tx.amount) :
    isCent (sumCredits l) := by
  refine isCent_listSum fun q hq => ?_
  simp only [List.mem_map, List.mem_filter] at hq
  obtain ⟨tx, ⟨htx, _⟩, rfl⟩ := hq
  exact h tx htx

theorem isCent_sumDebits {l : List StoredTx} (h : ∀ tx ∈ l, isCent tx.amount) :
    isCent (sumDebits l) := by
  refine isCent_listSum fun q hq => ?_
  simp only [List.mem_map, List.mem_filter] at hq
  obtain ⟨tx, ⟨htx, _⟩, rfl⟩ := hq
  exact h tx htx

/-! ### Claim C8 -/

/-- C8: on an empty log (the model of a missing or empty log file, which
`read_transactions` reads as no records), the summary is all six fields
zero, by-account and timeline are empty lists, and type-distribution is
`{credit: 0, debit: 0}`. -/
theorem C8_empty_log_degenerate :
    get_summary [] = ⟨0, 0, 0, 0, 0, 0⟩ ∧
    get_by_account [] = [] ∧
    get_timeline [] = some [] ∧
    get_type_distribution [] = (0, 0) := by
  decide

/-! ### Claim C2 -/

/-- C2 counterexample: on the log holding a credit of 0.375 and a debit of
0.125 (amounts a client can submit, since the receiver does not enforce
two-decimal amounts), the summary returns total_credits = 0.38,
total_debits = 0.12, net_balance = 0.25, and 0.38 - 0.12 = 0.26 ≠ 0.25: the
claimed identity fails on the rounded returned fields. -/
theorem C2_rounded_identity_fails :
    (get_summary [⟨"t1", "A", 3/8, "ts", "credit"⟩, ⟨"t2", "A", 1/8, "ts", "debit"⟩]).total_credits -
      (get_summary [⟨"t1", "A", 3/8, "ts", "credit"⟩, ⟨"t2", "A", 1/8, "ts", "debit"⟩]).total_debits ≠
      (get_summary [⟨"t1", "A", 3/8, "ts", "credit"⟩, ⟨"t2", "A", 1/8, "ts", "debit"⟩]).net_balance := by
  decide

/-- C2 amended: whenever every stored amount is an exact two-decimal value
(as the spec's data model prescribes for amounts), the summary's returned
fields satisfy total_credits - total_debits = net_balance. -/
theorem C2_summary_identity_of_cent (l : List StoredTx) (h : ∀ tx ∈ l, isCent tx.amount) :
    (get_summary l).total_credits - (get_summary l).total_debits
      = (get_summary l).net_balance := by
  unfold get_summary
  split
  · norm_num
  · have hc := isCent_sumCredits h
    have hd := isCent_sumDebits h
    simp only
    rw [roundTo2_eq_self hc, roundTo2_eq_self hd, roundTo2_eq_self (isCent_sub hc hd)]

/-- C2 amended, witness: the identity holds on the concrete log of a 100.00
credit and a 40.00 debit. -/
theorem C2_summary_identity_witness :
    (∀ tx ∈ [(⟨"t1", "A", 100, "ts", "credit"⟩ : StoredTx), ⟨"t2", "A", 40, "ts", "debit"⟩],
      isCent tx.amount) ∧
    (get_summary [⟨"t1", "A", 100, "ts", "credit"⟩, ⟨"t2", "A", 40, "ts", "debit"⟩]).total_credits -
      (get_summary [⟨"t1", "A", 100, "ts", "credit"⟩, ⟨"t2", "A", 40, "ts", "debit"⟩]).total_debits
      = (get_summary [⟨"t1", "A", 100, "ts", "credit"⟩, ⟨"t2", "A", 40, "ts", "debit"⟩]).net_balance :=
  ⟨by decide, C2_summary_identity_of_cent _ (by decide)⟩

/-! ### Claim C1 -/

/-- C1 counterexample: a submission whose amount is -5 with all fields
present and a valid `type` passes validation (the pydantic model constrains
only presence, types and the `type` enum, not the amount's sign), is
accepted with an echoed id, and is appended, so the resulting log holds a
record with amount < 0. -/
theorem C1_negative_amount_accepted :
    (postTransaction [] ⟨some "t1", some "A", some (-5), some ⟨0, 0⟩, some "credit"⟩).2
      = some "t1" ∧
    ((postTransaction [] ⟨some "t1", some "A", some (-5), some ⟨0, 0⟩, some "credit"⟩).1.filter
      fun r => decide (r.amount < 0)).length = 1 := by
  decide

/-- C1 amended: the receiver performs no sign check on the amount. Every
submission with all five fields present and `type` in the two-value enum is
accepted and appended with the submitted amount stored unchanged — also
when that amount is negative — so stored records need not satisfy
amount ≥ 0. -/
theorem C1_no_sign_check (log : List StoredTx) (i a : String) (amt : ℚ) (dt : Datetime)
    (ty : String) (hty : ty = "credit" ∨ ty = "debit") :
    ∃ r : StoredTx,
      postTransaction log ⟨some i, some a, some amt, some dt, some ty⟩ = (log ++ [r], some i) ∧
        r.amount = amt ∧ r.id = i ∧ r.account = a ∧ r.type = ty := by
  rcases hty with rfl | rfl
  · exact ⟨⟨i, a, amt, normalizeTs dt, "credit"⟩,
      by simp [postTransaction, validate, parseTxType, receive, storedOf, TxType.str],
      rfl, rfl, rfl, rfl⟩
  · exact ⟨⟨i, a, amt, normalizeTs dt, "debit"⟩,
      by simp [postTransaction, validate, parseTxType, receive, storedOf, TxType.str],
      rfl, rfl, rfl, rfl⟩

/-- C1 amended, witness: instantiated at a credit submission of amount -5
on the empty log. -/
theorem C1_no_sign_check_witness :
    ("credit" = "credit" ∨ "credit" = "debit") ∧
    ∃ r : StoredTx,
      postTransaction [] ⟨some "t1", some "A", some (-5), some ⟨0, 0⟩, some "credit"⟩
          = ([] ++ [r], some "t1") ∧
        r.amount = -5 ∧ r.id = "t1" ∧ r.account = "A" ∧ r.type = "credit" :=
  ⟨Or.inl rfl, C1_no_sign_check [] "t1" "A" (-5) ⟨0, 0⟩ "credit" (Or.inl rfl)⟩

/-! ### Claim C3 -/

theorem parseTxType_eq_none {ty : String} (h1 : ty ≠ "credit") (h2 : ty ≠ "debit") :
    parseTxType ty = none := by
  unfold parseTxType
  split <;> simp_all

/-- C3: a submission whose `type` is neither "credit" nor "debit" fails
validation, so the endpoint returns a 422 (no echoed id), the log is
unchanged, and a subsequent summary's total_transactions is unaffected. -/
theorem C3_invalid_type_rejected (log : List StoredTx) (raw : RawSubmission) (ty : String)
    (hty : raw.type = some ty) (h1 : ty ≠ "credit") (h2 : ty ≠ "debit") :
    postTransaction log raw = (log, none) ∧
    (get_summary (postTransaction log raw).1).total_transactions
      = (get_summary log).total_transactions := by
  have hv : validate raw = none := by
    rcases raw with ⟨i, a, amt, ts, typ⟩
    simp only at hty
    subst hty
    cases i <;> cases a <;> cases amt <;> cases ts <;>
      simp [validate, parseTxType_eq_none h1 h2]
  refine ⟨?_, ?_⟩ <;> simp [postTransaction, hv]

/-- C3 witness: instantiated at a submission with `type: "invalid"` on the
singleton log of one stored credit. -/
theorem C3_invalid_type_rejected_witness :
    ((⟨some "x", some "B", some 5, some ⟨0, 0⟩, some "invalid"⟩ : RawSubmission).type
        = some "invalid") ∧
    ("invalid" ≠ "credit") ∧ ("invalid" ≠ "debit") ∧
    (postTransaction [⟨"t1", "A", 100, "ts", "credit"⟩]
        ⟨some "x", some "B", some 5, some ⟨0, 0⟩, some "invalid"⟩
      = ([⟨"t1", "A", 100, "ts", "credit"⟩], none) ∧
    (get_summary (postTransaction [⟨"t1", "A", 100, "ts", "credit"⟩]
        ⟨some "x", some "B", some 5, some ⟨0, 0⟩, some "invalid"⟩).1).total_transactions
      = (get_summary [⟨"t1", "A", 100, "ts", "credit"⟩]).total_transactions) :=
  ⟨rfl, by decide, by decide,
    C3_invalid_type_rejected [⟨"t1", "A", 100, "ts", "credit"⟩]
      ⟨some "x", some "B", some 5, some ⟨0, 0⟩, some "invalid"⟩ "invalid"
      rfl (by decide) (by decide)⟩

/-! ### Claim C4 -/

/-- C4: accepting a valid record grows a subsequent summary's
total_transactions by exactly one, and adds the record's amount to the
credit sum when its type is credit and to the debit sum when it is debit
(the returned total_credits/total_debits are the two-decimal roundings of
those updated sums). -/
theorem C4_summary_after_receive (l : List StoredTx) (tx : Transaction) :
    (get_summary (receive l tx)).total_transactions
      = (get_summary l).total_transactions + 1 ∧
    sumCredits (receive l tx)
      = sumCredits l + (if tx.type = TxType.credit then tx.amount else 0) ∧
    sumDebits (receive l tx)
      = sumDebits l + (if tx.type = TxType.debit then tx.amount else 0) ∧
    (get_summary (receive l tx)).total_credits
      = roundTo2 (sumCredits l + (if tx.type = TxType.credit then tx.amount else 0)) ∧
    (get_summary (receive l tx)).total_debits
      = roundTo2 (sumDebits l + (if tx.type = TxType.debit then tx.amount else 0)) := by
  have hne : (receive l tx).isEmpty = false := by simp [receive]
  have hsc : sumCredits (receive l tx)
      = sumCredits l + (if tx.type = TxType.credit then tx.amount else 0) := by
    rw [receive, sumCredits_append]
    obtain ⟨i, a, amt, dt, ty⟩ := tx
    cases ty <;> simp [storedOf, TxType.str]
  have hsd : sumDebits (receive l tx)
      = sumDebits l + (if tx.type = TxType.debit then tx.amount else 0) := by
    rw [receive, sumDebits_append]
    obtain ⟨i, a, amt, dt, ty⟩ := tx
    cases ty <;> simp [storedOf, TxType.str]
  refine ⟨?_, hsc, hsd, ?_, ?_⟩
  · rw [total_transactions_eq, total_transactions_eq, receive]
    simp
  · rw [← hsc]
    unfold get_summary
    rw [hne]
    rfl
  · rw [← hsd]
    unfold get_summary
    rw [hne]
    rfl

/-! ### Recent-query lemmas (claims C7, C9, C10) -/

theorem recent_take (l : List StoredTx) (k : ℕ) :
    ((l.insertionSort tsDesc).take k).Pairwise tsDesc ∧
    ∃ rest : List StoredTx,
      (((l.insertionSort tsDesc).take k) ++ rest).Perm l ∧
      ∀ y ∈ rest, ∀ x ∈ (l.insertionSort tsDesc).take k, strLe y.timestamp x.timestamp := by
  have hsorted : (l.insertionSort tsDesc).Pairwise tsDesc :=
    List.sorted_insertionSort tsDesc l
  have hsplit : (l.insertionSort tsDesc).take k ++ (l.insertionSort tsDesc).drop k
      = l.insertionSort tsDesc := List.take_append_drop k _
  refine ⟨hsorted.sublist (List.take_sublist k _), (l.insertionSort tsDesc).drop k, ?_, ?_⟩
  · rw [hsplit]
    exact List.perm_insertionSort tsDesc l
  · have hp : ((l.insertionSort tsDesc).take k ++ (l.insertionSort tsDesc).drop k).Pairwise
        tsDesc := by
      rw [hsplit]
      exact hsorted
    intro y hy x hx
    exact (List.pairwise_append.mp hp).2.2 x hx y hy

/-- C7: for a nonnegative limit, the recent query returns min(limit, total)
records, in descending lexicographic order of their timestamp strings
(`tsDesc x y` is `strLe y.timestamp x.timestamp`, Python's string
comparison), and they are the lexicographically greatest ones: the rest of
the log (up to permutation) has timestamps at most every returned one. -/
theorem C7_recent_nonneg_limit (l : List StoredTx) (limit : ℤ) (h : 0 ≤ limit) :
    (get_recent l limit).length = min limit.toNat l.length ∧
    (get_recent l limit).Pairwise tsDesc ∧
    ∃ rest : List StoredTx,
      ((get_recent l limit) ++ rest).Perm l ∧
      ∀ y ∈ rest, ∀ x ∈ get_recent l limit, strLe y.timestamp x.timestamp := by
  have heq : get_recent l limit = (l.insertionSort tsDesc).take limit.toNat := by
    unfold get_recent pySliceTo
    rw [if_pos h]
  rw [heq]
  refine ⟨?_, recent_take l limit.toNat⟩
  rw [List.length_take, (List.perm_insertionSort tsDesc l).length_eq]

/-- C7 witness: with limit 1 after two records with distinct timestamps,
only the record with the later timestamp is returned. -/
theorem C7_recent_witness :
    (0 : ℤ) ≤ 1 ∧
    ((get_recent [⟨"t1", "A", 100, "2024-01-02T03:44:55Z", "credit"⟩,
        ⟨"t2", "B", 40, "2024-01-03T03:10:00Z", "debit"⟩] 1).length
      = min (1 : ℤ).toNat 2 ∧
    (get_recent [⟨"t1", "A", 100, "2024-01-02T03:44:55Z", "credit"⟩,
        ⟨"t2", "B", 40, "2024-01-03T03:10:00Z", "debit"⟩] 1).Pairwise tsDesc ∧
    ∃ rest : List StoredTx,
      ((get_recent [⟨"t1", "A", 100, "2024-01-02T03:44:55Z", "credit"⟩,
          ⟨"t2", "B", 40, "2024-01-03T03:10:00Z", "debit"⟩] 1) ++ rest).Perm
        [⟨"t1", "A", 100, "2024-01-02T03:44:55Z", "credit"⟩,
          ⟨"t2", "B", 40, "2024-01-03T03:10:00Z", "debit"⟩] ∧
      ∀ y ∈ rest, ∀ x ∈ get_recent [⟨"t1", "A", 100, "2024-01-02T03:44:55Z", "credit"⟩,
          ⟨"t2", "B", 40, "2024-01-03T03:10:00Z", "debit"⟩] 1,
        strLe y.timestamp x.timestamp) ∧
    get_recent [⟨"t1", "A", 100, "2024-01-02T03:44:55Z", "credit"⟩,
        ⟨"t2", "B", 40, "2024-01-03T03:10:00Z", "debit"⟩] 1
      = [⟨"t2", "B", 40, "2024-01-03T03:10:00Z", "debit"⟩] :=
  ⟨by decide,
    C7_recent_nonneg_limit
      [⟨"t1", "A", 100, "2024-01-02T03:44:55Z", "credit"⟩,
        ⟨"t2", "B", 40, "2024-01-03T03:10:00Z", "debit"⟩] 1 (by decide),
    by decide⟩

/-! ### Claim C10 -/

/-- C10: a negative limit with |limit| ≤ n does not fail: the query returns
the n - |limit| records with the greatest timestamp strings in descending
order (the Python slice `[:limit]` silently drops the |limit| oldest), and
limit 0 returns the empty list. -/
theorem C10_recent_negative_limit (l : List StoredTx) (limit : ℤ) (hneg : limit < 0)
    (hle : (-limit).toNat ≤ l.length) :
    (get_recent l limit).length = l.length - (-limit).toNat ∧
    (get_recent l limit).Pairwise tsDesc ∧
    (∃ rest : List StoredTx,
      ((get_recent l limit) ++ rest).Perm l ∧
      ∀ y ∈ rest, ∀ x ∈ get_recent l limit, strLe y.timestamp x.timestamp) ∧
    get_recent l 0 = [] := by
  have hslen : (l.insertionSort tsDesc).length = l.length :=
    (List.perm_insertionSort tsDesc l).length_eq
  have heq : get_recent l limit
      = (l.insertionSort tsDesc).take (l.length - (-limit).toNat) := by
    unfold get_recent pySliceTo
    rw [if_neg (by omega), hslen, Nat.min_eq_left hle]
  rw [heq]
  refine ⟨?_, (recent_take l _).1, (recent_take l _).2, ?_⟩
  · rw [List.length_take, hslen]
    omega
  · unfold get_recent pySliceTo
    rw [if_pos le_rfl]
    simp

/-- C10 witness: with limit -1 on a log of two records with distinct
timestamps, the single record with the later timestamp is returned, and
limit 0 returns the empty list. -/
theorem C10_recent_negative_witness :
    (-1 : ℤ) < 0 ∧ ((-(-1) : ℤ)).toNat ≤ 2 ∧
    ((get_recent [⟨"t1", "A", 100, "2024-01-02T03:44:55Z", "credit"⟩,
        ⟨"t2", "B", 40, "2024-01-03T03:10:00Z", "debit"⟩] (-1)).length = 2 - ((-(-1) : ℤ)).toNat ∧
    (get_recent [⟨"t1", "A", 100, "2024-01-02T03:44:55Z", "credit"⟩,
        ⟨"t2", "B", 40, "2024-01-03T03:10:00Z", "debit"⟩] (-1)).Pairwise tsDesc ∧
    (∃ rest : List StoredTx,
      ((get_recent [⟨"t1", "A", 100, "2024-01-02T03:44:55Z", "credit"⟩,
          ⟨"t2", "B", 40, "2024-01-03T03:10:00Z", "debit"⟩] (-1)) ++ rest).Perm
        [⟨"t1", "A", 100, "2024-01-02T03:44:55Z", "credit"⟩,
          ⟨"t2", "B", 40, "2024-01-03T03:10:00Z", "debit"⟩] ∧
      ∀ y ∈ rest, ∀ x ∈ get_recent [⟨"t1", "A", 100, "2024-01-02T03:44:55Z", "credit"⟩,
          ⟨"t2", "B", 40, "2024-01-03T03:10:00Z", "debit"⟩] (-1),
        strLe y.timestamp x.timestamp) ∧
    get_recent [⟨"t1", "A", 100, "2024-01-02T03:44:55Z", "credit"⟩,
        ⟨"t2", "B", 40, "2024-01-03T03:10:00Z", "debit"⟩] 0 = []) ∧
    get_recent [⟨"t1", "A", 100, "2024-01-02T03:44:55Z", "credit"⟩,
        ⟨"t2", "B", 40, "2024-01-03T03:10:00Z", "debit"⟩] (-1)
      = [⟨"t2", "B", 40, "2024-01-03T03:10:00Z", "debit"⟩] :=
  ⟨by decide, by decide,
    C10_recent_negative_limit
      [⟨"t1", "A", 100, "2024-01-02T03:44:55Z", "credit"⟩,
        ⟨"t2", "B", 40, "2024-01-03T03:10:00Z", "debit"⟩] (-1) (by decide) (by decide),
    by decide⟩

/-! ### Claim C9 -/

/-- C9: a valid record accepted by the ingestion endpoint is retrievable via
the recent query with a limit at least the new log size: some returned
record carries exactly the submitted id, account, amount and type (as its
enum string), and the stored timestamp normalization of the submitted
instant (UTC ISO-8601 with Z suffix, `normalizeTs`). -/
theorem C9_roundtrip_via_recent (l : List StoredTx) (tx : Transaction) (limit : ℤ)
    (h : ((l.length + 1 : ℕ) : ℤ) ≤ limit) :
    ∃ r ∈ get_recent (receive l tx) limit,
      r.id = tx.id ∧ r.account = tx.account ∧ r.amount = tx.amount ∧
      r.type = tx.type.str ∧ r.timestamp = normalizeTs tx.timestamp := by
  refine ⟨storedOf tx, ?_, rfl, rfl, rfl, rfl, rfl⟩
  have h0 : (0 : ℤ) ≤ limit := le_trans (by positivity) h
  have hslen : ((receive l tx).insertionSort tsDesc).length = l.length + 1 := by
    rw [(List.perm_insertionSort tsDesc _).length_eq]
    simp [receive]
  unfold get_recent pySliceTo
  rw [if_pos h0, List.take_of_length_le]
  · exact (List.mem_insertionSort tsDesc).mpr (by simp [receive])
  · rw [hslen]
    omega

/-- C9 witness: instantiated at a concrete credit of 12.5 submitted with an
aware timestamp at offset +05:30, on the empty log, with the default
limit 10. -/
theorem C9_roundtrip_witness :
    (((0 : ℕ) + 1 : ℕ) : ℤ) ≤ 10 ∧
    ∃ r ∈ get_recent (receive []
        ⟨"t9", "C77", 25/2, ⟨3600 + 125, 330⟩, TxType.credit⟩) 10,
      r.id = "t9" ∧ r.account = "C77" ∧ r.amount = 25/2 ∧
      r.type = TxType.credit.str ∧
      r.timestamp = normalizeTs ⟨3600 + 125, 330⟩ :=
  ⟨by decide,
    C9_roundtrip_via_recent [] ⟨"t9", "C77", 25/2, ⟨3600 + 125, 330⟩, TxType.credit⟩ 10
      (by decide)⟩

/-! ### Ordered-dict (upsert) lemmas, shared by the by-account and timeline
claims -/

theorem lookup_upsert_self (k : String) (f : β → β) (dflt : β) :
    ∀ m : List (String × β),
      List.lookup k (upsert k f dflt m) = some (f ((List.lookup k m).getD dflt))
  | [] => by simp [upsert]
  | (k', v) :: m => by
    by_cases h : k' = k
    · subst h
      simp [upsert]
    · have h' : (k == k') = false := by simp [Ne.symm h]
      simp [upsert, if_neg h, List.lookup_cons, h', lookup_upsert_self k f dflt m]

theorem lookup_upsert_ne (k k' : String) (f : β → β) (dflt : β) (h : k' ≠ k) :
    ∀ m : List (String × β), List.lookup k' (upsert k f dflt m) = List.lookup k' m
  | [] => by
    have h' : (k' == k) = false := by simp [h]
    simp [upsert, List.lookup_cons, h']
  | (k'', v) :: m => by
    by_cases h2 : k'' = k
    · subst h2
      have h' : (k' == k'') = false := by simp [h]
      simp [upsert, List.lookup_cons, h']
    · by_cases h3 : k' = k''
      · subst h3
        simp [upsert, if_neg h2, List.lookup_cons]
      · have h' : (k' == k'') = false := by simp [h3]
        simp [upsert, if_neg h2, List.lookup_cons, h', lookup_upsert_ne k k' f dflt h m]

theorem mem_keys_upsert (k a : String) (f : β → β) (dflt : β) :
    ∀ m : List (String × β),
      (a ∈ (upsert k f dflt m).map Prod.fst ↔ a ∈ m.map Prod.fst ∨ a = k)
  | [] => by simp [upsert]
  | (k', v) :: m => by
    by_cases h : k' = k
    · subst h
      rw [upsert, if_pos rfl]
      simp only [List.map_cons, List.mem_cons]
      tauto
    · simp only [upsert, if_neg h, List.map_cons, List.mem_cons]
      rw [mem_keys_upsert k a f dflt m]
      tauto

theorem nodup_keys_upsert (k : String) (f : β → β) (dflt : β) :
    ∀ m : List (String × β),
      (m.map Prod.fst).Nodup → ((upsert k f dflt m).map Prod.fst).Nodup
  | [] => by simp [upsert]
  | (k', v) :: m => by
    intro h
    simp only [List.map_cons, List.nodup_cons] at h
    by_cases hk : k' = k
    · subst hk
      simpa [upsert, List.nodup_cons] using h
    · simp only [upsert, if_neg hk, List.map_cons, List.nodup_cons]
      refine ⟨fun hmem => ?_, nodup_keys_upsert k f dflt m h.2⟩
      rw [mem_keys_upsert] at hmem
      rcases hmem with hmem | rfl
      · exact h.1 hmem
      · exact hk rfl

theorem lookup_of_mem_nodup :
    ∀ (m : List (String × β)) (a : String) (b : β),
      (m.map Prod.fst).Nodup → (a, b) ∈ m → List.lookup a m = some b
  | [], _, _, _, h => by simp at h
  | (k, v) :: m, a, b, hnd, hmem => by
    simp only [List.map_cons, List.nodup_cons] at hnd
    rcases List.mem_cons.mp hmem with heq | hmem'
    · obtain ⟨rfl, rfl⟩ := Prod.mk.injEq .. ▸ heq
      simp
    · have hne : a ≠ k := by
        rintro rfl
        exact hnd.1 (List.mem_map.mpr ⟨(a, b), hmem', rfl⟩)
      have hbeq : (a == k) = false := by simp [hne]
      rw [List.lookup_cons, hbeq]
      exact lookup_of_mem_nodup m a b hnd.2 hmem'

theorem lookup_mem :
    ∀ (m : List (String × β)) (a : String) (b : β),
      List.lookup a m = some b → (a, b) ∈ m
  | [], _, _, h => by simp at h
  | (k, v) :: m, a, b, h => by
    by_cases hak : a = k
    · subst hak
      rw [List.lookup_cons_self] at h
      exact List.mem_cons.mpr (Or.inl (by injection h with h; rw [h]))
    · have hbeq : (a == k) = false := by simp [hak]
      rw [List.lookup_cons, hbeq] at h
      exact List.mem_cons.mpr (Or.inr (lookup_mem m a b h))

theorem lookup_foldl_upsert_some (key : α → String) (f : α → β → β) (dflt : β) :
    ∀ (l : List α) (m : List (String × β)) (a : String) (b : β), List.lookup a m = some b →
      List.lookup a (l.foldl (fun m x => upsert (key x) (f x) dflt m) m)
        = some ((l.filter fun x => key x == a).foldl (fun b x => f x b) b)
  | [], m, a, b, h => by simpa using h
  | x :: l, m, a, b, h => by
    by_cases hx : key x = a
    · subst hx
      have hfil : ((x :: l).filter fun y => key y == key x)
          = x :: (l.filter fun y => key y == key x) := by
        rw [List.filter_cons, if_pos (by simp)]
      rw [hfil, List.foldl_cons, List.foldl_cons]
      refine lookup_foldl_upsert_some key f dflt l _ _ (f x b) ?_
      rw [lookup_upsert_self, h]
      rfl
    · have hfil : ((x :: l).filter fun y => key y == a) = l.filter fun y => key y == a := by
        rw [List.filter_cons, if_neg (by simpa using hx)]
      rw [hfil, List.foldl_cons]
      refine lookup_foldl_upsert_some key f dflt l _ _ b ?_
      rw [lookup_upsert_ne _ _ _ _ (fun h2 => hx h2.symm), h]

theorem lookup_foldl_upsert_none (key : α → String) (f : α → β → β) (dflt : β) :
    ∀ (l : List α) (m : List (String × β)) (a : String), List.lookup a m = none →
      List.lookup a (l.foldl (fun m x => upsert (key x) (f x) dflt m) m)
        = if (l.filter fun x => key x == a).isEmpty then none
          else some ((l.filter fun x => key x == a).foldl (fun b x => f x b) dflt)
  | [], m, a, h => by simpa using h
  | x :: l, m, a, h => by
    by_cases hx : key x = a
    · subst hx
      have hfil : ((x :: l).filter fun y => key y == key x)
          = x :: (l.filter fun y => key y == key x) := by
        rw [List.filter_cons, if_pos (by simp)]
      simp only [hfil, List.isEmpty_cons, Bool.false_eq_true, if_false, List.foldl_cons]
      refine lookup_foldl_upsert_some key f dflt l _ _ (f x dflt) ?_
      rw [lookup_upsert_self, h]
      rfl
    · have hfil : ((x :: l).filter fun y => key y == a) = l.filter fun y => key y == a := by
        rw [List.filter_cons, if_neg (by simpa using hx)]
      rw [hfil, List.foldl_cons]
      refine lookup_foldl_upsert_none key f dflt l _ _ ?_
      rw [lookup_upsert_ne _ _ _ _ (fun h2 => hx h2.symm), h]

theorem mem_keys_foldl_upsert (key : α → String) (f : α → β → β) (dflt : β) (a : String) :
    ∀ (l : List α) (m : List (String × β)),
      (a ∈ (l.foldl (fun m x => upsert (key x) (f x) dflt m) m).map Prod.fst
        ↔ a ∈ m.map Prod.fst ∨ ∃ x ∈ l, key x = a)
  | [], m => by simp
  | x :: l, m => by
    simp only [List.foldl_cons]
    rw [mem_keys_foldl_upsert key f dflt a l _, mem_keys_upsert]
    simp only [List.mem_cons]
    constructor
    · rintro ((h | rfl) | ⟨y, hy, rfl⟩)
      · exact Or.inl h
      · exact Or.inr ⟨x, Or.inl rfl, rfl⟩
      · exact Or.inr ⟨y, Or.inr hy, rfl⟩
    · rintro (h | ⟨y, (rfl | hy), rfl⟩)
      · exact Or.inl (Or.inl h)
      · exact Or.inl (Or.inr rfl)
      · exact Or.inr ⟨y, hy, rfl⟩

theorem nodup_keys_foldl_upsert (key : α → String) (f : α → β → β) (dflt : β) :
    ∀ (l : List α) (m : List (String × β)),
      (m.map Prod.fst).Nodup →
      ((l.foldl (fun m x => upsert (key x) (f x) dflt m) m).map Prod.fst).Nodup
  | [], _, h => h
  | x :: l, m, h =>
    nodup_keys_foldl_upsert key f dflt l _ (nodup_keys_upsert _ _ _ _ h)

/-! ### Claim C5 -/

theorem sumOther_eq_sumDebits {l : List StoredTx}
    (h : ∀ tx ∈ l, tx.type = "credit" ∨ tx.type = "debit") : sumOther l = sumDebits l := by
  unfold sumOther sumDebits
  have hfil : (l.filter fun tx => !(tx.type == "credit"))
      = l.filter fun tx => tx.type == "debit" := by
    apply List.filter_congr
    intro tx htx
    rcases h tx htx with hc | hd
    · simp [hc]
    · simp [hd]
  rw [hfil]

theorem accountFold_credits :
    ∀ (lf : List StoredTx) (b : AccountData),
      (lf.foldl (fun d tx => accountStep tx d) b).credits = b.credits + sumCredits lf
  | [], b => by simp [sumCredits]
  | tx :: lf, b => by
    rw [List.foldl_cons, accountFold_credits lf _]
    by_cases h : tx.type == "credit" <;>
      simp [accountStep, h, sumCredits, List.filter_cons] <;> ring

theorem accountFold_debits :
    ∀ (lf : List StoredTx) (b : AccountData),
      (lf.foldl (fun d tx => accountStep tx d) b).debits = b.debits + sumOther lf
  | [], b => by simp [sumOther]
  | tx :: lf, b => by
    rw [List.foldl_cons, accountFold_debits lf _]
    by_cases h : tx.type == "credit" <;>
      simp [accountStep, h, sumOther, List.filter_cons] <;> ring

theorem accountFold_count :
    ∀ (lf : List StoredTx) (b : AccountData),
      (lf.foldl (fun d tx => accountStep tx d) b).count = b.count + lf.length
  | [], b => by simp
  | tx :: lf, b => by
    rw [List.foldl_cons, accountFold_count lf _]
    by_cases h : tx.type == "credit" <;> simp [accountStep, h] <;> omega

theorem accountFold_balance :
    ∀ (lf : List StoredTx) (b : AccountData),
      (lf.foldl (fun d tx => accountStep tx d) b).balance
        = b.balance + (sumCredits lf - sumOther lf)
  | [], b => by simp [sumCredits, sumOther]
  | tx :: lf, b => by
    rw [List.foldl_cons, accountFold_balance lf _]
    by_cases h : tx.type == "credit" <;>
      simp [accountStep, h, sumCredits, sumOther, List.filter_cons] <;> ring

theorem get_by_account_eq (l : List StoredTx) :
    get_by_account l
      = ((l.foldl (fun m tx => upsert tx.account (accountStep tx) ⟨0, 0, 0, 0⟩ m) []).map
          fun p => AccountEntry.mk p.1 (roundTo2 p.2.credits) (roundTo2 p.2.debits)
            (roundTo2 p.2.balance) p.2.count).insertionSort balanceDesc := rfl

/-- C5: the by-account query groups the log by account: every returned entry
carries the two-decimal roundings of its account's credit sum, debit sum and
their difference (the balance) together with its record count; exactly the
accounts occurring in the log are returned; and the output is sorted in
descending order of balance (`balanceDesc x y` is `y.balance ≤ x.balance`).
Stated for logs whose stored types are in the enum, as the receiver writes
them (the code's `else` branch files every non-credit type under debits). -/
theorem C5_by_account (l : List StoredTx)
    (htypes : ∀ tx ∈ l, tx.type = "credit" ∨ tx.type = "debit") :
    (get_by_account l).Pairwise balanceDesc ∧
    (∀ e ∈ get_by_account l,
      e.credits = roundTo2 (sumCredits (l.filter fun tx => tx.account == e.account)) ∧
      e.debits = roundTo2 (sumDebits (l.filter fun tx => tx.account == e.account)) ∧
      e.balance = roundTo2 (sumCredits (l.filter fun tx => tx.account == e.account)
        - sumDebits (l.filter fun tx => tx.account == e.account)) ∧
      e.count = (l.filter fun tx => tx.account == e.account).length) ∧
    (∀ a : String, (∃ e ∈ get_by_account l, e.account = a) ↔ ∃ tx ∈ l, tx.account = a) := by
  refine ⟨?_, ?_, ?_⟩
  · rw [get_by_account_eq]
    exact List.sorted_insertionSort balanceDesc _
  · intro e he
    rw [get_by_account_eq, List.mem_insertionSort] at he
    obtain ⟨⟨a, d⟩, hmem, rfl⟩ := List.mem_map.mp he
    have hnodup : (((l.foldl (fun m tx => upsert tx.account (accountStep tx) ⟨0, 0, 0, 0⟩ m)
        [])).map Prod.fst).Nodup :=
      nodup_keys_foldl_upsert (fun tx => tx.account) accountStep ⟨0, 0, 0, 0⟩ l [] (by simp)
    have hlook := lookup_of_mem_nodup _ a d hnodup hmem
    have hall := lookup_foldl_upsert_none (fun tx => tx.account) accountStep ⟨0, 0, 0, 0⟩ l []
      a rfl
    rw [hlook] at hall
    by_cases hemp : (l.filter fun x => x.account == a).isEmpty
    · rw [if_pos hemp] at hall
      exact absurd hall (by simp)
    · rw [if_neg hemp] at hall
      injection hall with hd
      have hsub : ∀ tx ∈ l.filter fun x => x.account == a, tx.type = "credit" ∨
          tx.type = "debit" := fun tx htx => htypes tx (List.mem_of_mem_filter htx)
      have hOD : sumOther (l.filter fun x => x.account == a)
          = sumDebits (l.filter fun x => x.account == a) := sumOther_eq_sumDebits hsub
      refine ⟨?_, ?_, ?_, ?_⟩ <;>
        simp [hd, accountFold_credits, accountFold_debits, accountFold_count,
          accountFold_balance, hOD]
  · intro a
    rw [get_by_account_eq]
    constructor
    · rintro ⟨e, he, rfl⟩
      rw [List.mem_insertionSort] at he
      obtain ⟨⟨a', d⟩, hmem, rfl⟩ := List.mem_map.mp he
      have : a' ∈ ((l.foldl (fun m tx => upsert tx.account (accountStep tx) ⟨0, 0, 0, 0⟩ m)
          [])).map Prod.fst := List.mem_map.mpr ⟨(a', d), hmem, rfl⟩
      rw [mem_keys_foldl_upsert (fun tx => tx.account) accountStep ⟨0, 0, 0, 0⟩] at this
      rcases this with h | ⟨x, hx, hxa⟩
      · simp at h
      · exact ⟨x, hx, hxa⟩
    · rintro ⟨tx, htx, rfl⟩
      have : tx.account ∈ ((l.foldl (fun m tx => upsert tx.account (accountStep tx)
          ⟨0, 0, 0, 0⟩ m) [])).map Prod.fst := by
        rw [mem_keys_foldl_upsert (fun tx => tx.account) accountStep ⟨0, 0, 0, 0⟩]
        exact Or.inr ⟨tx, htx, rfl⟩
      obtain ⟨⟨a', d⟩, hmem, heq⟩ := List.mem_map.mp this
      refine ⟨AccountEntry.mk a' (roundTo2 d.credits) (roundTo2 d.debits)
        (roundTo2 d.balance) d.count, ?_, heq⟩
      rw [List.mem_insertionSort]
      exact List.mem_map.mpr ⟨(a', d), hmem, rfl⟩

/-- C5 witness: the scenario log of a 100.00 credit then a 40.00 debit on
account A123 yields the single entry
`{credits: 100.00, debits: 40.00, balance: 60.00, count: 2}`. -/
theorem C5_by_account_witness :
    (∀ tx ∈ [(⟨"s1", "A123", 100, "ts1", "credit"⟩ : StoredTx),
        ⟨"s2", "A123", 40, "ts2", "debit"⟩], tx.type = "credit" ∨ tx.type = "debit") ∧
    (get_by_account [⟨"s1", "A123", 100, "ts1", "credit"⟩,
        ⟨"s2", "A123", 40, "ts2", "debit"⟩]).Pairwise balanceDesc ∧
    get_by_account [⟨"s1", "A123", 100, "ts1", "credit"⟩, ⟨"s2", "A123", 40, "ts2", "debit"⟩]
      = [⟨"A123", 100, 40, 60, 2⟩] :=
  ⟨by decide,
    (C5_by_account [⟨"s1", "A123", 100, "ts1", "credit"⟩, ⟨"s2", "A123", 40, "ts2", "debit"⟩]
      (by decide)).1,
    by decide⟩

/-! ### Claim C6: timeline fold lemmas -/

theorem timelineFold_credits :
    ∀ (lf : List StoredTx) (b : TimelineData),
      (lf.foldl (fun d tx => timelineStep tx d) b).credits = b.credits + sumCredits lf
  | [], b => by simp [sumCredits]
  | tx :: lf, b => by
    rw [List.foldl_cons, timelineFold_credits lf _]
    by_cases h : tx.type == "credit" <;>
      simp [timelineStep, h, sumCredits, List.filter_cons] <;> ring

theorem timelineFold_debits :
    ∀ (lf : List StoredTx) (b : TimelineData),
      (lf.foldl (fun d tx => timelineStep tx d) b).debits = b.debits + sumOther lf
  | [], b => by simp [sumOther]
  | tx :: lf, b => by
    rw [List.foldl_cons, timelineFold_debits lf _]
    by_cases h : tx.type == "credit" <;>
      simp [timelineStep, h, sumOther, List.filter_cons] <;> ring

theorem timelineFold_count :
    ∀ (lf : List StoredTx) (b : TimelineData),
      (lf.foldl (fun d tx => timelineStep tx d) b).count = b.count + lf.length
  | [], b => by simp
  | tx :: lf, b => by
    rw [List.foldl_cons, timelineFold_count lf _]
    by_cases h : tx.type == "credit" <;> simp [timelineStep, h] <;> omega

theorem timeline_foldlM_eq :
    ∀ (l : List StoredTx) (m₀ : List (String × TimelineData)),
      (∀ tx ∈ l, (pyHourKey tx.timestamp).isSome) →
      (l.foldlM (fun m tx => do
          let key ← pyHourKey tx.timestamp
          pure (upsert key (timelineStep tx) ⟨0, 0, 0⟩ m)) m₀ : Option _)
        = some (l.foldl (fun m tx =>
            upsert ((pyHourKey tx.timestamp).getD "") (timelineStep tx) ⟨0, 0, 0⟩ m) m₀)
  | [], _, _ => rfl
  | tx :: l, m₀, h => by
    obtain ⟨k, hk⟩ := Option.isSome_iff_exists.mp (h tx (by simp))
    rw [List.foldlM_cons, List.foldl_cons, hk]
    simp only [Option.bind_some, Option.some_bind, Option.getD_some, Option.bind_eq_bind,
      Option.pure_def]
    exact timeline_foldlM_eq l _ fun x hx => h x (by simp [hx])

theorem get_timeline_eq (l : List StoredTx) (h : ∀ tx ∈ l, (pyHourKey tx.timestamp).isSome)
    (hne : l ≠ []) :
    get_timeline l = some (((l.foldl (fun m tx =>
        upsert ((pyHourKey tx.timestamp).getD "") (timelineStep tx) ⟨0, 0, 0⟩ m)
      []).insertionSort bucketAsc).map fun p =>
        TimelineEntry.mk p.1 (roundTo2 p.2.credits) (roundTo2 p.2.debits) p.2.count) := by
  unfold get_timeline
  rw [if_neg (by simpa [List.isEmpty_iff] using hne)]
  rw [show (do
      let m ← l.foldlM (fun m tx => do
        let key ← pyHourKey tx.timestamp
        pure (upsert key (timelineStep tx) ⟨0, 0, 0⟩ m)) []
      pure (((m.insertionSort bucketAsc)).map fun p =>
        TimelineEntry.mk p.1 (roundTo2 p.2.credits) (roundTo2 p.2.debits) p.2.count) : Option _)
    = _ from by rw [timeline_foldlM_eq l [] h]]
  rfl

/-! ### Claim C6: the bucket key is the hour truncation of the stored
timestamp -/

theorem char_isDigit_bounds {c : Char} (h : c.isDigit = true) :
    48 ≤ c.toNat ∧ c.toNat ≤ 57 := by
  simp only [Char.isDigit, Bool.and_eq_true, decide_eq_true_eq, ge_iff_le] at h
  exact ⟨h.1, h.2⟩

theorem digitVal_lt_ten {c : Char} (h : c.isDigit = true) : digitVal c < 10 := by
  obtain ⟨h1, h2⟩ := char_isDigit_bounds h
  unfold digitVal
  omega

theorem dChar_digit {c : Char} (h : c.isDigit = true) {n : ℕ} (hn : n % 10 = digitVal c) :
    dChar n = c := by
  obtain ⟨h1, h2⟩ := char_isDigit_bounds h
  unfold dChar
  unfold digitVal at hn
  rw [hn, show 48 + (c.toNat - 48) = c.toNat from by omega]
  exact Char.ofNat_toNat c

theorem pad4_digits {c0 c1 c2 c3 : Char} (h0 : c0.isDigit = true) (h1 : c1.isDigit = true)
    (h2 : c2.isDigit = true) (h3 : c3.isDigit = true) :
    pad4 (((digitVal c0 * 10 + digitVal c1) * 10 + digitVal c2) * 10 + digitVal c3)
      = ⟨[c0, c1, c2, c3]⟩ := by
  have b0 := digitVal_lt_ten h0
  have b1 := digitVal_lt_ten h1
  have b2 := digitVal_lt_ten h2
  have b3 := digitVal_lt_ten h3
  unfold pad4
  rw [dChar_digit h0 (by omega), dChar_digit h1 (by omega), dChar_digit h2 (by omega),
    dChar_digit h3 (by omega)]

theorem pad2_digits {c0 c1 : Char} (h0 : c0.isDigit = true) (h1 : c1.isDigit = true) :
    pad2 (digitVal c0 * 10 + digitVal c1) = ⟨[c0, c1]⟩ := by
  have b0 := digitVal_lt_ten h0
  have b1 := digitVal_lt_ten h1
  unfold pad2
  rw [dChar_digit h0 (by omega), dChar_digit h1 (by omega)]

theorem mk_append (a b : List Char) : String.mk a ++ String.mk b = String.mk (a ++ b) := rfl

theorem replaceAux_not_mem {rep : List Char} {p : Char} :
    ∀ (fuel : ℕ) (l : List Char), p ∉ l → pyReplaceAux [p] rep fuel l = l
  | 0, l, _ => rfl
  | _ + 1, [], _ => rfl
  | fuel + 1, c :: l, h => by
    have hpc : ¬([p].isPrefixOf (c :: l) = true) := by
      simp only [List.isPrefixOf, List.isPrefixOf_nil_left, Bool.and_true, beq_iff_eq]
      exact fun he => h (he ▸ List.mem_cons_self c l)
    rw [pyReplaceAux, if_neg hpc,
      replaceAux_not_mem fuel l fun hm => h (List.mem_cons_of_mem c hm)]

theorem replaceAux_single_end {rep : List Char} {p : Char} :
    ∀ (fuel : ℕ) (l : List Char), p ∉ l → l.length < fuel →
      pyReplaceAux [p] rep fuel (l ++ [p]) = l ++ rep
  | 0, l, _, hlen => absurd hlen (by omega)
  | fuel + 1, [], _, _ => by
    rw [List.nil_append, pyReplaceAux, if_pos (by simp [List.isPrefixOf])]
    cases fuel <;> simp [pyReplaceAux]
  | fuel + 1, c :: l, h, hlen => by
    have hpc : ¬([p].isPrefixOf (c :: (l ++ [p])) = true) := by
      simp only [List.isPrefixOf, List.isPrefixOf_nil_left, Bool.and_true, beq_iff_eq]
      exact fun he => h (he ▸ List.mem_cons_self c l)
    rw [List.cons_append, pyReplaceAux, if_neg hpc,
      replaceAux_single_end fuel l (fun hm => h (List.mem_cons_of_mem c hm))
        (by simp at hlen ⊢; omega)]
    rfl

theorem strftime_of_fromiso {rl : List Char} {dt : PyDatetime}
    (h : fromisoChars rl = some dt) :
    strftimeHour dt = hourTrunc ⟨rl⟩ ∧ 19 ≤ rl.length := by
  unfold fromisoChars at h
  split at h
  case h_2 => exact absurd h (by simp)
  case h_1 y0 y1 y2 y3 mo0 mo1 d0 d1 sep h0 h1 mi0 mi1 s0 s1 rest =>
    split at h
    case isFalse => exact absurd h (by simp)
    case isTrue hdig =>
      obtain ⟨hy0, hy1, hy2, hy3, hmo0, hmo1, hd0, hd1, hh0, hh1, _, _, _, _⟩ := hdig
      split at h
      case h_2 => exact absurd h (by simp)
      case h_1 us rest2 _ =>
        split at h
        case h_2 => exact absurd h (by simp)
        case h_1 off _ =>
          dsimp only at h
          split at h
          case isFalse => exact absurd h (by simp)
          case isTrue hrange =>
            injection h with h
            subst h
            constructor
            · unfold strftimeHour hourTrunc
              simp only [List.take, List.drop]
              rw [pad4_digits hy0 hy1 hy2 hy3, pad2_digits hmo0 hmo1, pad2_digits hd0 hd1,
                pad2_digits hh0 hh1]
              rfl
            · simp only [List.length_cons]
              omega

theorem pyHourKey_trunc (ts : String) (hz : 'Z' ∉ ts.data.dropLast) (k : String)
    (hk : pyHourKey ts = some k) : k = hourTrunc ts := by
  unfold pyHourKey at hk
  obtain ⟨dt, hdt, rfl⟩ := Option.map_eq_some'.mp hk
  obtain ⟨htrunc, hlen⟩ := strftime_of_fromiso hdt
  rw [htrunc]
  rcases List.eq_nil_or_concat ts.data with hnil | ⟨L, b, hLb⟩
  · exfalso
    have : (pyReplace ts "Z" "+00:00").data = [] := by
      unfold pyReplace
      rw [hnil]
      rfl
    rw [this] at hdt
    exact absurd hdt (by simp [fromisoChars])
  · rw [List.concat_eq_append] at hLb
    rw [hLb, List.dropLast_concat] at hz
    by_cases hb : b = 'Z'
    · subst hb
      have hrl : (pyReplace ts "Z" "+00:00").data
          = L ++ ("+00:00" : String).data := by
        unfold pyReplace
        rw [hLb]
        exact replaceAux_single_end _ L hz (by simp [hLb])
      have hL13 : 13 ≤ L.length := by
        rw [hrl] at hlen
        simp at hlen
        omega
      unfold hourTrunc
      rw [hrl, hLb]
      rw [List.take_append_of_le_length (by omega), List.take_append_of_le_length (by omega),
        List.drop_append_of_le_length (by omega), List.drop_append_of_le_length (by omega),
        List.take_append_of_le_length (by simp; omega),
        List.take_append_of_le_length (by simp; omega)]
    · have hznot : 'Z' ∉ ts.data := by
        rw [hLb]
        intro hmem
        rcases List.mem_append.mp hmem with hm | hm
        · exact hz hm
        · simp at hm
          exact hb hm.symm
      have hrl : (pyReplace ts "Z" "+00:00").data = ts.data := by
        unfold pyReplace
        exact replaceAux_not_mem _ _ hznot
      rw [hrl]

/-- C6: when every stored timestamp parses (as every receiver-written one
does) and every stored type is in the enum, the timeline query succeeds and
returns one bucket per distinct hour key — the key being exactly the
truncation of the stored timestamp to `YYYY-MM-DD HH:00` with no time-zone
re-conversion (last conjunct, for timestamps whose only `Z` is a final
suffix, as the receiver writes them) — each bucket carrying the two-decimal
roundings of its records' credit and debit sums and its record count, the
buckets sorted ascending by key; an empty log yields an empty list. -/
theorem C6_timeline (l : List StoredTx)
    (hkeys : ∀ tx ∈ l, (pyHourKey tx.timestamp).isSome)
    (htypes : ∀ tx ∈ l, tx.type = "credit" ∨ tx.type = "debit") :
    ∃ out : List TimelineEntry, get_timeline l = some out ∧
      (l = [] → out = []) ∧
      out.Pairwise (fun a b => strLe a.timestamp b.timestamp) ∧
      (∀ e ∈ out,
        e.credits = roundTo2 (sumCredits (l.filter fun tx =>
          pyHourKey tx.timestamp == some e.timestamp)) ∧
        e.debits = roundTo2 (sumDebits (l.filter fun tx =>
          pyHourKey tx.timestamp == some e.timestamp)) ∧
        e.count = (l.filter fun tx => pyHourKey tx.timestamp == some e.timestamp).length) ∧
      (∀ k : String,
        (∃ e ∈ out, e.timestamp = k) ↔ ∃ tx ∈ l, pyHourKey tx.timestamp = some k) ∧
      (∀ ts : String, 'Z' ∉ ts.data.dropLast →
        ∀ k, pyHourKey ts = some k → k = hourTrunc ts) := by
  by_cases hnil : l = []
  · subst hnil
    exact ⟨[], by decide, fun _ => rfl, by simp, by simp, by simp,
      fun ts hz k hk => pyHourKey_trunc ts hz k hk⟩
  · refine ⟨_, get_timeline_eq l hkeys hnil, fun h => absurd h hnil, ?_, ?_, ?_,
      fun ts hz k hk => pyHourKey_trunc ts hz k hk⟩
    · rw [List.pairwise_map]
      exact List.sorted_insertionSort bucketAsc _
    · intro e he
      rw [List.mem_map] at he
      obtain ⟨⟨a, d⟩, hmem, rfl⟩ := he
      rw [List.mem_insertionSort] at hmem
      have hnodup : (((l.foldl (fun m tx => upsert ((pyHourKey tx.timestamp).getD "")
          (timelineStep tx) ⟨0, 0, 0⟩ m) [])).map Prod.fst).Nodup :=
        nodup_keys_foldl_upsert (fun tx => (pyHourKey tx.timestamp).getD "")
          timelineStep ⟨0, 0, 0⟩ l [] (by simp)
      have hlook := lookup_of_mem_nodup _ a d hnodup hmem
      have hall := lookup_foldl_upsert_none (fun tx => (pyHourKey tx.timestamp).getD "")
        timelineStep ⟨0, 0, 0⟩ l [] a rfl
      rw [hlook] at hall
      have hfc : (l.filter fun x => ((pyHourKey x.timestamp).getD "") == a)
          = l.filter fun x => pyHourKey x.timestamp == some a := by
        apply List.filter_congr
        intro x hx
        obtain ⟨k', hk'⟩ := Option.isSome_iff_exists.mp (hkeys x hx)
        simp [hk']
      rw [hfc] at hall
      by_cases hemp : (l.filter fun x => pyHourKey x.timestamp == some a).isEmpty
      · rw [if_pos hemp] at hall
        exact absurd hall (by simp)
      · rw [if_neg hemp] at hall
        injection hall with hd
        have hsub : ∀ tx ∈ l.filter fun x => pyHourKey x.timestamp == some a,
            tx.type = "credit" ∨ tx.type = "debit" :=
          fun tx htx => htypes tx (List.mem_of_mem_filter htx)
        have hOD := sumOther_eq_sumDebits hsub
        refine ⟨?_, ?_, ?_⟩ <;>
          simp [hd, timelineFold_credits, timelineFold_debits, timelineFold_count, hOD]
    · intro k
      constructor
      · rintro ⟨e, he, rfl⟩
        rw [List.mem_map] at he
        obtain ⟨⟨a, d⟩, hmem, rfl⟩ := he
        rw [List.mem_insertionSort] at hmem
        have : a ∈ ((l.foldl (fun m tx => upsert ((pyHourKey tx.timestamp).getD "")
            (timelineStep tx) ⟨0, 0, 0⟩ m) [])).map Prod.fst :=
          List.mem_map.mpr ⟨(a, d), hmem, rfl⟩
        rw [mem_keys_foldl_upsert (fun tx => (pyHourKey tx.timestamp).getD "")
          timelineStep ⟨0, 0, 0⟩] at this
        rcases this with h | ⟨x, hx, hxa⟩
        · simp at h
        · obtain ⟨k', hk'⟩ := Option.isSome_iff_exists.mp (hkeys x hx)
          refine ⟨x, hx, ?_⟩
          rw [hk'] at hxa ⊢
          simp only [Option.getD_some] at hxa
          rw [hxa]
      · rintro ⟨tx, htx, hkey⟩
        have : tx ∈ l := htx
        have hmemk : k ∈ ((l.foldl (fun m tx => upsert ((pyHourKey tx.timestamp).getD "")
            (timelineStep tx) ⟨0, 0, 0⟩ m) [])).map Prod.fst := by
          rw [mem_keys_foldl_upsert (fun tx => (pyHourKey tx.timestamp).getD "")
            timelineStep ⟨0, 0, 0⟩]
          refine Or.inr ⟨tx, htx, ?_⟩
          rw [hkey]
          rfl
        obtain ⟨⟨a, d⟩, hmem, heq⟩ := List.mem_map.mp hmemk
        refine ⟨TimelineEntry.mk a (roundTo2 d.credits) (roundTo2 d.debits) d.count, ?_, heq⟩
        rw [List.mem_map]
        refine ⟨(a, d), ?_, rfl⟩
        rw [List.mem_insertionSort]
        exact hmem

/-- C6 witness: on a concrete two-record log (timestamps in two different
hours, one with minutes/seconds and an offsetless `Z` form) the timeline
returns the two buckets ascending with the truncated keys and correct
sums. -/
theorem C6_timeline_witness :
    (∀ tx ∈ [(⟨"t1", "A", 100, "2024-01-02T03:44:55Z", "credit"⟩ : StoredTx),
        ⟨"t2", "B", 40, "2024-01-01T23:10:09Z", "debit"⟩],
      (pyHourKey tx.timestamp).isSome) ∧
    (∀ tx ∈ [(⟨"t1", "A", 100, "2024-01-02T03:44:55Z", "credit"⟩ : StoredTx),
        ⟨"t2", "B", 40, "2024-01-01T23:10:09Z", "debit"⟩],
      tx.type = "credit" ∨ tx.type = "debit") ∧
    (∃ out : List TimelineEntry,
      get_timeline [⟨"t1", "A", 100, "2024-01-02T03:44:55Z", "credit"⟩,
          ⟨"t2", "B", 40, "2024-01-01T23:10:09Z", "debit"⟩] = some out ∧
      out.Pairwise (fun a b => strLe a.timestamp b.timestamp)) ∧
    get_timeline [⟨"t1", "A", 100, "2024-01-02T03:44:55Z", "credit"⟩,
        ⟨"t2", "B", 40, "2024-01-01T23:10:09Z", "debit"⟩]
      = some [⟨"2024-01-01 23:00", 0, 40, 1⟩, ⟨"2024-01-02 03:00", 100, 0, 1⟩] ∧
    hourTrunc "2024-01-02T03:44:55Z" = "2024-01-02 03:00" :=
  ⟨by decide, by decide,
    (C6_timeline [⟨"t1", "A", 100, "2024-01-02T03:44:55Z", "credit"⟩,
        ⟨"t2", "B", 40, "2024-01-01T23:10:09Z", "debit"⟩] (by decide) (by decide)).elim
      fun out h => ⟨out, h.1, h.2.2.1⟩,
    by decide, by decide⟩

end TxPipeline
